/-
Shallow embedding of `pie_detection/scripts/yolov3_net.py`:
the architecture-description parser (`YoloV3Net.parse_cfg`) and the
graph-assembly walk of `YoloV3Net.load_model`, together with the
per-record semantics of the yolo detection-head decode.

Python-level behaviours that matter to the claims are modelled
explicitly: dict lookups raise `KeyError` on a missing key, list
indexing supports negative wrap-around and raises `IndexError` when out
of range, `int()` raises `ValueError` on a non-numeric string, and `+`
on mixed int/list operands raises `TypeError`.  All of these are
represented by an `Except Err` result.
-/
import Mathlib

namespace YoloSpec

/-- Errors surfaced by the Python runtime or the tensor library during
parsing or graph assembly. -/
inductive Err where
  | keyError
  | indexError
  | valueError
  | typeError
  deriving DecidableEq, Repr

/-- A block descriptor: a Python dict from attribute name to raw string
value, in insertion order. -/
abbrev Block := List (String × String)

/-- Python dict assignment `d[k] = v`: overwrite in place if the key
exists, otherwise append (insertion order preserved). -/
def dictSet : Block → String → String → Block
  | [], k, v => [(k, v)]
  | (k', v') :: rest, k, v =>
    if k' = k then (k, v) :: rest else (k', v') :: dictSet rest k v

/-- Python dict read `d[k]`: `KeyError` when absent. -/
def att (b : Block) (k : String) : Except Err String :=
  match b.lookup k with
  | some v => .ok v
  | none => .error .keyError

/-- Python membership test `k in d`. -/
def hasAttr (b : Block) (k : String) : Bool :=
  (b.lookup k).isSome

/-- Python `str.rstrip()`. -/
def rstrip (s : String) : String :=
  String.mk ((s.toList.reverse.dropWhile Char.isWhitespace).reverse)

/-- Python `str.lstrip()`. -/
def lstrip (s : String) : String :=
  String.mk (s.toList.dropWhile Char.isWhitespace)

/-- Numeric value of a run of decimal digits. -/
def digitsVal (cs : List Char) : Nat :=
  cs.foldl (fun a c => a * 10 + (c.toNat - 48)) 0

/-- Python `int(s)` on a character list: surrounding whitespace is
tolerated, then an optional sign followed by at least one decimal
digit; anything else is rejected. -/
def pyIntCore (cs0 : List Char) : Option Int :=
  let cs1 := cs0.dropWhile Char.isWhitespace
  let cs := (cs1.reverse.dropWhile Char.isWhitespace).reverse
  match cs with
  | '-' :: rest =>
    if rest ≠ [] ∧ rest.all Char.isDigit then some (-(digitsVal rest : Int))
    else none
  | '+' :: rest =>
    if rest ≠ [] ∧ rest.all Char.isDigit then some (digitsVal rest)
    else none
  | rest =>
    if rest ≠ [] ∧ rest.all Char.isDigit then some (digitsVal rest)
    else none

/-- Python `int(s)`: raises `ValueError` on a non-numeric string. -/
def pyInt (s : String) : Except Err Int :=
  match pyIntCore s.toList with
  | some n => .ok n
  | none => .error .valueError

/-- Splitting a character list on every occurrence of a separator
(Python `str.split(sep)` for a one-character separator: always at least
one group, empty groups preserved). -/
def splitChars (sep : Char) : List Char → List (List Char)
  | [] => [[]]
  | c :: rest =>
    if c = sep then [] :: splitChars sep rest
    else
      match splitChars sep rest with
      | [] => [[c]]
      | g :: gs => (c :: g) :: gs

/-- Python `s.split(sep)` for a one-character separator. -/
def pySplit (sep : Char) (s : String) : List String :=
  (splitChars sep s.toList).map String.mk

/-- Python `s[0] == c` on a non-empty string (`false` on empty). -/
def startsWithChar (c : Char) (s : String) : Bool :=
  match s.toList with
  | [] => false
  | c' :: _ => c' == c

/-- Python list indexing `l[j]`: negative indices count from the end;
out of range raises `IndexError`. -/
def pyGet (l : List α) (j : Int) : Except Err α :=
  let j' := if j < 0 then j + l.length else j
  if h : 0 ≤ j' ∧ j'.toNat < l.length then .ok (l.get ⟨j'.toNat, h.2⟩)
  else .error .indexError

/-- Lookup in the `outputs` dict of `load_model`.  The dict is keyed by
the loop index, assigned once per iteration in order, so it is a list
whose `n`-th entry is `outputs[n]`; an integer key outside `0..len-1`
(negative keys included: dicts do not wrap) raises `KeyError`. -/
def dget (l : List α) (j : Int) : Except Err α :=
  if h : 0 ≤ j ∧ j.toNat < l.length then .ok (l.get ⟨j.toNat, h.2⟩)
  else .error .keyError

/-- Python `a + b` on the values stored in `output_filters`: the
variable `filters` starts life as the empty list `[]` (modelled `none`)
and otherwise holds ints (`some n`).  `[] + []` is `[]`, int + int adds,
mixing the two raises `TypeError`. -/
def pyAdd : Option Int → Option Int → Except Err (Option Int)
  | some a, some b => .ok (some (a + b))
  | none, none => .ok none
  | _, _ => .error .typeError

/-! ### The architecture parser (`parse_cfg`, source lines 164-179) -/

/-- One `key,value = line.split("=")` step followed by
`holder[key.rstrip()] = value.lstrip()`; `split` must produce exactly
two parts or the unpacking raises `ValueError`. -/
def procLine (line : String) (holder : Block) : Except Err Block :=
  match pySplit '=' line with
  | [k, v] => .ok (dictSet holder (rstrip k) (lstrip v))
  | _ => .error .valueError

/-- Python `line[1:-1]`: drop the first and the last character. -/
def sliceInner (s : String) : String :=
  String.mk ((s.toList.drop 1).dropLast)

/-- The loop body of `parse_cfg` over the filtered lines: a bracketed
header flushes the non-empty descriptor under construction and starts a
fresh one via the synthetic line `"type=" ++ contents`; every other line
is a `key=value` insertion.  After the last line the descriptor under
construction is appended unconditionally. -/
def parseLoop : List String → Block → List Block → Except Err (List Block)
  | [], holder, blocks => .ok (blocks ++ [holder])
  | l :: rest, holder, blocks =>
    if startsWithChar '[' l then
      let line := "type=" ++ rstrip (sliceInner l)
      let blocks' := if holder = [] then blocks else blocks ++ [holder]
      match procLine line [] with
      | .ok holder' => parseLoop rest holder' blocks'
      | .error e => .error e
    else
      match procLine l holder with
      | .ok holder' => parseLoop rest holder' blocks
      | .error e => .error e

/-- Model of `YoloV3Net.parse_cfg`, taking the file's lines (without trailing
newlines).  Blank lines and lines starting with the comment marker are
filtered out first, then the loop builds the descriptor list. -/
def parse_cfg (rawLines : List String) : Except Err (List Block) :=
  let lines := rawLines.filter (fun l => !(l = "") && !(startsWithChar '#' l))
  parseLoop lines [] []

/-! ### Symbolic tensors

The numeric layer kernels (convolution, batch normalization, leaky
rectification, nearest-neighbour upsampling, padding, elementwise add,
channel concatenation, reshape) are external tensor-library primitives;
the builder only sequences and parameterizes them, so the graph is
embedded as a syntax tree recording exactly those calls. -/

/-- Padding mode passed to the convolution primitive. -/
inductive Padding where
  | same
  | valid
  deriving DecidableEq, Repr

/-- A symbolic tensor: the chain of tensor-library calls that produced
it, with all build-time parameters. -/
inductive Tensor where
  /-- The call `Input(shape=model_size)`. -/
  | input (shape : Nat × Nat × Nat)
  /-- The expression `inputs / 255.0`: unit-range normalization of the raw image. -/
  | scaleDiv255 (t : Tensor)
  /-- The call `ZeroPadding2D(((1, 0), (1, 0)))`: one unit on top, none on the
  bottom, one on the left, none on the right. -/
  | zeroPad2D (top bottom left right : Nat) (t : Tensor)
  /-- The call `Conv2D(filters, kernel_size, strides, padding, name, use_bias)`. -/
  | conv2D (filters kernel stride : Int) (pad : Padding) (useBias : Bool)
      (name : String) (t : Tensor)
  /-- The call `BatchNormalization(name)`. -/
  | batchNorm (name : String) (t : Tensor)
  /-- The call `LeakyReLU(alpha, name)`. -/
  | leakyReLU (alpha : ℚ) (name : String) (t : Tensor)
  /-- The call `UpSampling2D(stride)`. -/
  | upSampling2D (stride : Int) (t : Tensor)
  /-- The call `tf.concat([a, b], axis=-1)`: channel-wise concatenation. -/
  | concatLast (a b : Tensor)
  /-- The expression `a + b`: elementwise sum. -/
  | addT (a b : Tensor)
  /-- The call `tf.reshape(t, [-1, n_anchors * grid_h * grid_w, 5 + num_classes])`. -/
  | reshapeRecords (nAnchors gridH gridW numClasses : Nat) (t : Tensor)
  deriving DecidableEq, Repr

/-- The symbolic multi-scale prediction accumulated in `out_pred`: a
decoded detection head, or `tf.concat([a, b], axis=1)` of two
predictions along the box-record axis. -/
inductive Pred where
  /-- The decoded prediction of the `yolo` block processed at loop index
  `idx`, with its mask-selected anchors, its grid shape
  `(out_shape[1], out_shape[2])`, and its reshaped source tensor. -/
  | headP (idx : Nat) (anchors : List (Int × Int)) (grid : Nat × Nat)
      (src : Tensor)
  /-- The call `tf.concat([a, b], axis=1)`. -/
  | concatP (a b : Pred)
  deriving DecidableEq, Repr

/-- Output channel count of a symbolic tensor, as inferred by the
tensor library (`none` when a concat operand count is unavailable). -/
def chan : Tensor → Option Int
  | .input s => some (s.2.2 : Int)
  | .scaleDiv255 t => chan t
  | .zeroPad2D _ _ _ _ t => chan t
  | .conv2D f _ _ _ _ _ _ => some f
  | .batchNorm _ t => chan t
  | .leakyReLU _ _ t => chan t
  | .upSampling2D _ t => chan t
  | .concatLast a b =>
    match chan a, chan b with
    | some x, some y => some (x + y)
    | _, _ => none
  | .addT a _ => chan a
  | .reshapeRecords _ _ _ c _ => some ((5 + c : Nat) : Int)

/-! ### The graph-assembly walk (`load_model`, source lines 52-162) -/

/-- The mutable state threaded through the `for i, block in
enumerate(blocks[1:])` loop of `load_model`. -/
structure BuildState where
  /-- Field `outputs`: dict from loop index to that layer's symbolic tensor;
  one entry per processed block, so entry `n` is `outputs[n]`. -/
  outputs : List Tensor
  /-- Field `output_filters`: list of the `filters` value appended after each
  block; `none` is the initial Python `[]` placeholder carried by
  blocks that never assigned `filters`. -/
  output_filters : List (Option Int)
  /-- The `filters` variable (initially the empty list `[]`, here
  `none`). -/
  filters : Option Int
  /-- Field `out_pred`: the accumulated multi-scale prediction (initially the
  empty list `[]`, here `none`). -/
  out_pred : Option Pred
  /-- The `scale` flag: whether a detection head has contributed yet. -/
  scale : Bool
  /-- Field `inputs`: the current tensor. -/
  inputs : Tensor
  deriving DecidableEq, Repr

/-- State at loop entry: empty caches, `inputs = Input(model_size) / 255.0`. -/
def initState (modelSize : Nat × Nat × Nat) : BuildState :=
  { outputs := []
    output_filters := []
    filters := none
    out_pred := none
    scale := false
    inputs := .scaleDiv255 (.input modelSize) }

/-- The common tail of every loop iteration: `outputs[i] = inputs;
output_filters.append(filters)`, with the branch's updated current
tensor `t` and `filters` value `f`. -/
def finish (st : BuildState) (t : Tensor) (f : Option Int) : BuildState :=
  { st with
    inputs := t
    filters := f
    outputs := st.outputs ++ [t]
    output_filters := st.output_filters ++ [f] }

/-- The `convolutional` branch (source lines 65-85).  The Keras
`Conv2D` constructor rejects a non-positive stride with a `ValueError`;
that library-side validation is the `strides < 1` guard. -/
def stepConv (i : Nat) (st : BuildState) (b : Block) : Except Err BuildState := do
  let activation ← att b "activation"
  let filters ← pyInt (← att b "filters")
  let kernel ← pyInt (← att b "size")
  let strides ← pyInt (← att b "stride")
  if strides < 1 then .error .valueError else
  let bn := hasAttr b "batch_normalize"
  let t0 := if strides > 1 then Tensor.zeroPad2D 1 0 1 0 st.inputs else st.inputs
  let t1 := Tensor.conv2D filters kernel strides
    (if strides > 1 then .valid else .same) (!bn) ("conv_" ++ toString i) t0
  let t2 := if bn then Tensor.batchNorm ("bnorm_" ++ toString i) t1 else t1
  let t3 := if activation = "leaky"
    then Tensor.leakyReLU (1 / 10) ("leaky_" ++ toString i) t2 else t2
  return finish st t3 (some filters)

/-- The `upsample` branch (source lines 87-89). -/
def stepUpsample (st : BuildState) (b : Block) : Except Err BuildState := do
  let stride ← pyInt (← att b "stride")
  return finish st (.upSampling2D stride st.inputs) st.filters

/-- The `route` branch (source lines 91-102), in source evaluation
order: with two layer references the second is reconverted to a
relative offset by subtracting `i`, `filters` is computed from the two
`output_filters` entries (the second via Python negative indexing), and
the current tensor becomes the channel concatenation of the two cached
tensors; with one reference both are copied from the referenced entry. -/
def stepRoute (i : Nat) (st : BuildState) (b : Block) : Except Err BuildState := do
  let layersStr ← att b "layers"
  let parts := pySplit ',' layersStr
  let start ← pyInt (parts.headD "")
  if parts.length > 1 then
    let endv ← pyInt (parts.getD 1 "")
    let e := endv - (i : Int)
    let fa ← pyGet st.output_filters ((i : Int) + start)
    let fb ← pyGet st.output_filters e
    let f ← pyAdd fa fb
    let ta ← dget st.outputs ((i : Int) + start)
    let tb ← dget st.outputs ((i : Int) + e)
    return finish st (.concatLast ta tb) f
  else
    let fa ← pyGet st.output_filters ((i : Int) + start)
    let ta ← dget st.outputs ((i : Int) + start)
    return finish st ta fa

/-- The `shortcut` branch (source lines 104-106): elementwise sum of
the tensors cached at `i - 1` and `i + from`. -/
def stepShortcut (i : Nat) (st : BuildState) (b : Block) : Except Err BuildState := do
  let fr ← pyInt (← att b "from")
  let ta ← dget st.outputs ((i : Int) - 1)
  let tb ← dget st.outputs ((i : Int) + fr)
  return finish st (.addT ta tb) st.filters

/-- Grouping of the flat anchor list into consecutive `(w, h)` pairs:
`[(anchors[i], anchors[i+1]) for i in range(0, len(anchors), 2)]`; an
odd-length list makes the final `anchors[i+1]` raise `IndexError`. -/
def pairUp : List Int → Except Err (List (Int × Int))
  | [] => .ok []
  | [_] => .error .indexError
  | a :: b :: rest => do
    let r ← pairUp rest
    return (a, b) :: r

/-- The `yolo` branch (source lines 108-157): parse `mask` and
`anchors`, select the anchor pairs at the mask indices, reshape the
current tensor to the flat record sequence, and accumulate the decoded
per-head prediction into `out_pred` (seeding it on the first head,
concatenating along the record axis afterwards).  Grid shape is read
off the current tensor by the tensor library's shape inference,
supplied here as the `oracle` parameter. -/
def stepYolo (numClasses : Nat) (oracle : Tensor → Nat × Nat) (i : Nat)
    (st : BuildState) (b : Block) : Except Err BuildState := do
  let maskStr ← att b "mask"
  let mask ← (pySplit ',' maskStr).mapM pyInt
  let anchStr ← att b "anchors"
  let anch ← (pySplit ',' anchStr).mapM pyInt
  let pairs ← pairUp anch
  let sel ← mask.mapM (pyGet pairs)
  let hw := oracle st.inputs
  let t := Tensor.reshapeRecords sel.length hw.1 hw.2 numClasses st.inputs
  let pred := Pred.headP i sel hw t
  if st.scale then
    match st.out_pred with
    | some o =>
      return { finish st t st.filters with out_pred := some (.concatP o pred) }
    | none => .error .valueError
  else
    return { finish st t st.filters with out_pred := some pred, scale := true }

/-- One iteration of the `load_model` loop: dispatch on
`block["type"]`.  A type outside the recognized set matches no branch,
so only the common tail (`outputs[i] = inputs;
output_filters.append(filters)`) runs. -/
def step (numClasses : Nat) (oracle : Tensor → Nat × Nat) (i : Nat)
    (st : BuildState) (b : Block) : Except Err BuildState := do
  let ty ← att b "type"
  if ty = "convolutional" then stepConv i st b
  else if ty = "upsample" then stepUpsample st b
  else if ty = "route" then stepRoute i st b
  else if ty = "shortcut" then stepShortcut i st b
  else if ty = "yolo" then stepYolo numClasses oracle i st b
  else return finish st st.inputs st.filters

/-- The full walk over the block list, carrying the loop index. -/
def runBlocks (numClasses : Nat) (oracle : Tensor → Nat × Nat) :
    Nat → BuildState → List Block → Except Err BuildState
  | _, st, [] => .ok st
  | i, st, b :: bs => do
    let st' ← step numClasses oracle i st b
    runBlocks numClasses oracle (i + 1) st' bs

/-- Model of `load_model` on an already-parsed block list: skip the leading
`net` block and walk the rest from the initial state. -/
def load_model (numClasses : Nat) (oracle : Tensor → Nat × Nat)
    (modelSize : Nat × Nat × Nat) (blocks : List Block) :
    Except Err BuildState :=
  runBlocks numClasses oracle 0 (initState modelSize) (blocks.drop 1)

/-! ### Per-record semantics of the yolo decode (source lines 118-151)

`tf.reshape(inputs, [-1, n_anchors * grid_h * grid_w, 5 + num_classes])`
reinterprets the head's flat (row-major) data as consecutive records of
`5 + num_classes` channels; the subsequent vectorized ops act
per record.  `tf.sigmoid` and `tf.exp` are external numeric kernels and
are passed in as functions over `ℚ`. -/

/-- Decode of one raw record (the per-record action of source lines
130-151): channels `[0,2)` are the box centre, mapped through sigmoid,
translated by the record's grid cell and scaled by the stride; channels
`[2,4)` are the box size, exponentiated and multiplied by the record's
anchor pair; channel `4` is the objectness, and channels
`[5, 5+num_classes)` the class scores, each through sigmoid; the pieces
are concatenated back in that order (`tf.concat(..., axis=-1)`). -/
def decodeRecord (sig e : ℚ → ℚ) (numClasses : Nat) (anchor : Int × Int)
    (cell : Nat × Nat) (stride : Nat × Nat) (raw : List ℚ) : List ℚ :=
  ((sig (raw.getD 0 0) + (cell.1 : ℚ)) * (stride.1 : ℚ)) ::
  ((sig (raw.getD 1 0) + (cell.2 : ℚ)) * (stride.2 : ℚ)) ::
  (e (raw.getD 2 0) * (anchor.1 : ℚ)) ::
  (e (raw.getD 3 0) * (anchor.2 : ℚ)) ::
  sig (raw.getD 4 0) ::
  ((raw.drop 5).take numClasses).map sig

/-- The grid cell the code pairs with record `r`: `cx, cy =
tf.meshgrid(tf.range(grid_h), tf.range(grid_w))` flattened row-major
gives cell `(m % grid_h, m / grid_h)` for row `m`, and
`tf.tile(cxy, [1, n_anchors])` followed by the reshape assigns row
`r / n_anchors` to record `r`. -/
def cellOf (nAnchors gridH : Nat) (r : Nat) : Nat × Nat :=
  ((r / nAnchors) % gridH, (r / nAnchors) / gridH)

/-- Full decode of one detection head: record `r` of the reshape is the
flat-data slice `[r*(5+C), (r+1)*(5+C))`; its anchor is
`anchors[r % n_anchors]` (`tf.tile(anchors, [grid_h * grid_w, 1])`) and
its grid cell is `cellOf`; the stride is
`(input_h // grid_h, input_w // grid_w)`. -/
def decodeHead (sig e : ℚ → ℚ) (numClasses : Nat) (anchors : List (Int × Int))
    (inH inW gridH gridW : Nat) (flat : List ℚ) : List (List ℚ) :=
  let A := anchors.length
  let stride := (inH / gridH, inW / gridW)
  (List.range (flat.length / (5 + numClasses))).map fun r =>
    decodeRecord sig e numClasses (anchors.getD (r % A) (0, 0))
      (cellOf A gridH r) stride
      ((flat.drop (r * (5 + numClasses))).take (5 + numClasses))

/-- Record-sequence semantics of the accumulated prediction:
`tf.concat(axis=1)` appends the two record sequences, and a head node
decodes its own raw flat data, supplied by the environment `env` as a
map from the head's loop index.  `inHW` is the model's input spatial
shape `(input_image.shape[1], input_image.shape[2])`. -/
def predRecords (sig e : ℚ → ℚ) (numClasses : Nat) (inHW : Nat × Nat)
    (env : Nat → List ℚ) : Pred → List (List ℚ)
  | .headP idx anchors grid _ =>
    decodeHead sig e numClasses anchors inHW.1 inHW.2 grid.1 grid.2 (env idx)
  | .concatP a b =>
    predRecords sig e numClasses inHW env a ++
      predRecords sig e numClasses inHW env b

/-- Update of `out_pred` on one more head: seed it if empty, otherwise
concatenate along the record axis. -/
def pushHead (acc : Option Pred) (p : Pred) : Option Pred :=
  some (match acc with
        | none => p
        | some o => .concatP o p)

/-- Value of `out_pred` after a sequence of heads. -/
def pushHeads (acc : Option Pred) (ps : List Pred) : Option Pred :=
  ps.foldl pushHead acc

/-- Loop positions (starting at `i`) of the blocks whose `type`
attribute is `yolo`. -/
def yoloPositions (i : Nat) : List Block → List Nat
  | [] => []
  | b :: bs =>
    (if b.lookup "type" = some "yolo" then [i] else []) ++
      yoloPositions (i + 1) bs

/-- Whether a block's `type` is `convolutional` or `route` (the only
branches that assign the `filters` variable). -/
def isCR (b : Block) : Bool :=
  b.lookup "type" == some "convolutional" || b.lookup "type" == some "route"

/-- Position of the last `convolutional` or `route` block strictly
before position `j`. -/
def lastCR : List Block → Nat → Option Nat
  | _, 0 => none
  | [], _ + 1 => none
  | b :: bs, j + 1 =>
    match lastCR bs j with
    | some k => some (k + 1)
    | none => if isCR b then some 0 else none

/-- Loop index of a head node (junk on concatenations; used only to
relate head order to block order). -/
def predIdx : Pred → Nat
  | .headP n _ _ _ => n
  | .concatP _ _ => 0

/-! ### Concrete sample data -/

/-- A sample shape oracle: every tensor is reported with a 2 x 2
spatial grid. -/
def sampleOracle : Tensor → Nat × Nat := fun _ => (2, 2)

/-- A sample cached tensor. -/
def tSampleA : Tensor := .input (416, 416, 3)

/-- A second sample cached tensor. -/
def tSampleB : Tensor := .conv2D 16 3 1 .same true "conv_1" tSampleA

/-- A sample mid-walk state with two cached layers (filter counts 8 and
16), as entering loop index 2. -/
def sampleSt : BuildState :=
  { outputs := [tSampleA, tSampleB]
    output_filters := [some 8, some 16]
    filters := some 16
    out_pred := none
    scale := false
    inputs := tSampleB }

/-- A two-reference route block, `layers = -1, 0`. -/
def routeBlk2 : Block := [("type", "route"), ("layers", "-1, 0")]

/-- A single-reference route block, `layers = -1`. -/
def routeBlk1 : Block := [("type", "route"), ("layers", "-1")]

/-- A shortcut block, `from = -2`. -/
def shortBlk : Block :=
  [("type", "shortcut"), ("from", "-2"), ("activation", "linear")]

/-- A batch-normalized leaky convolutional block. -/
def convBlk : Block :=
  [("type", "convolutional"), ("batch_normalize", "1"), ("filters", "32"),
   ("size", "3"), ("stride", "1"), ("pad", "1"), ("activation", "leaky")]

/-- A convolutional block without batch normalization. -/
def convBlkPlain : Block :=
  [("type", "convolutional"), ("filters", "32"), ("size", "3"),
   ("stride", "1"), ("activation", "linear")]

/-- An upsample block. -/
def upsBlk : Block := [("type", "upsample"), ("stride", "2")]

/-- A block type outside the recognized set. -/
def maxpoolBlk : Block := [("type", "maxpool"), ("size", "2")]

/-- A minimal yolo block: one mask index into a one-pair anchor pool. -/
def yoloBlk : Block := [("type", "yolo"), ("mask", "0"), ("anchors", "10,13")]

/-- A minimal net block. -/
def netBlk : Block := [("type", "net")]

/-- An architecture whose three post-net blocks are all detection
heads. -/
def threeYolo : List Block := [netBlk, yoloBlk, yoloBlk, yoloBlk]

/-- The state after walking `threeYolo`. -/
def threeYoloSt : BuildState :=
  (load_model 80 sampleOracle (416, 416, 3) threeYolo).toOption.getD
    (initState (416, 416, 3))

/-- A two-block architecture: a convolution followed by an upsample. -/
def convUps : List Block := [netBlk, convBlkPlain, upsBlk]

/-- The state after walking `convUps`. -/
def convUpsSt : BuildState :=
  (load_model 80 sampleOracle (416, 416, 3) convUps).toOption.getD
    (initState (416, 416, 3))

/-! ### Helper lemmas -/

theorem ok_bind {α β : Type} (a : α) (f : α → Except Err β) :
    (Except.ok a >>= f) = f a := rfl

theorem error_bind {α β : Type} (e : Err) (f : α → Except Err β) :
    ((Except.error e : Except Err α) >>= f) = Except.error e := rfl

theorem bind_ok_elim {α β : Type} {x : Except Err α} {f : α → Except Err β}
    {v : β} (h : (x >>= f) = .ok v) : ∃ a, x = .ok a ∧ f a = .ok v := by
  cases x with
  | error e => rw [error_bind] at h; exact absurd h (by simp)
  | ok a => exact ⟨a, rfl, by rwa [ok_bind] at h⟩

theorem att_ok {b : Block} {k v : String} (h : b.lookup k = some v) :
    att b k = .ok v := by
  simp [att, h]

theorem att_ok_elim {b : Block} {k v : String} (h : att b k = .ok v) :
    b.lookup k = some v := by
  unfold att at h
  cases hl : b.lookup k with
  | none => rw [hl] at h; exact absurd h (by simp)
  | some w => rw [hl] at h; cases h; rfl

theorem dget_ok {α : Type} {l : List α} {j : Int} {v : α}
    (h : dget l j = .ok v) :
    0 ≤ j ∧ j.toNat < l.length ∧ l.get? j.toNat = some v := by
  unfold dget at h
  split at h
  case isTrue hc =>
    cases h
    exact ⟨hc.1, hc.2, List.get?_eq_get hc.2⟩
  case isFalse => exact absurd h (by simp)

theorem pyGet_ok_nonneg {α : Type} {l : List α} {j : Int} {v : α}
    (hj : 0 ≤ j) (h : pyGet l j = .ok v) :
    j.toNat < l.length ∧ l.get? j.toNat = some v := by
  simp only [pyGet, if_neg (not_lt.mpr hj)] at h
  split at h
  case isTrue hc =>
    cases h
    exact ⟨hc.2, List.get?_eq_get hc.2⟩
  case isFalse => exact absurd h (by simp)

theorem pyGet_ok_neg {α : Type} {l : List α} {j : Int} {v : α}
    (hj : j < 0) (h : pyGet l j = .ok v) :
    0 ≤ j + l.length ∧ (j + l.length).toNat < l.length ∧
      l.get? (j + l.length).toNat = some v := by
  simp only [pyGet, if_pos hj] at h
  split at h
  case isTrue hc =>
    cases h
    exact ⟨hc.1, hc.2, List.get?_eq_get hc.2⟩
  case isFalse => exact absurd h (by simp)

theorem pyAdd_ok_some {fa fb : Option Int} {a c : Int} {v : Option Int}
    (ha : fa = some a) (hb : fb = some c) (h : pyAdd fa fb = .ok v) :
    v = some (a + c) := by
  subst ha hb
  simp only [pyAdd] at h
  cases h
  rfl

theorem pure_eq_ok {α : Type} (a : α) : (pure a : Except Err α) = .ok a := rfl

theorem stepConv_shape {i : Nat} {st st' : BuildState} {b : Block}
    (h : stepConv i st b = .ok st') : ∃ t f, st' = finish st t (some f) := by
  unfold stepConv at h
  obtain ⟨act, hact, h⟩ := bind_ok_elim h
  obtain ⟨fs, hfs, h⟩ := bind_ok_elim h
  obtain ⟨f, hf, h⟩ := bind_ok_elim h
  obtain ⟨ks, hks, h⟩ := bind_ok_elim h
  obtain ⟨k, hk, h⟩ := bind_ok_elim h
  obtain ⟨ss, hss, h⟩ := bind_ok_elim h
  obtain ⟨s, hs, h⟩ := bind_ok_elim h
  split at h
  case isTrue => exact absurd h (by simp)
  case isFalse =>
    simp only [pure_eq_ok] at h
    exact ⟨_, f, (Except.ok.inj h).symm⟩

theorem stepUpsample_shape {st st' : BuildState} {b : Block}
    (h : stepUpsample st b = .ok st') : ∃ t, st' = finish st t st.filters := by
  unfold stepUpsample at h
  obtain ⟨ss, hss, h⟩ := bind_ok_elim h
  obtain ⟨s, hs, h⟩ := bind_ok_elim h
  simp only [pure_eq_ok] at h
  exact ⟨_, (Except.ok.inj h).symm⟩

theorem stepRoute_shape {i : Nat} {st st' : BuildState} {b : Block}
    (h : stepRoute i st b = .ok st') : ∃ t f, st' = finish st t f := by
  unfold stepRoute at h
  obtain ⟨ls, hls, h⟩ := bind_ok_elim h
  obtain ⟨start, hstart, h⟩ := bind_ok_elim h
  split at h
  case isTrue =>
    obtain ⟨endv, hendv, h⟩ := bind_ok_elim h
    obtain ⟨fa, hfa, h⟩ := bind_ok_elim h
    obtain ⟨fb, hfb, h⟩ := bind_ok_elim h
    obtain ⟨f, hf, h⟩ := bind_ok_elim h
    obtain ⟨ta, hta, h⟩ := bind_ok_elim h
    obtain ⟨tb, htb, h⟩ := bind_ok_elim h
    simp only [pure_eq_ok] at h
    exact ⟨_, f, (Except.ok.inj h).symm⟩
  case isFalse =>
    obtain ⟨fa, hfa, h⟩ := bind_ok_elim h
    obtain ⟨ta, hta, h⟩ := bind_ok_elim h
    simp only [pure_eq_ok] at h
    exact ⟨ta, fa, (Except.ok.inj h).symm⟩

theorem stepShortcut_shape {i : Nat} {st st' : BuildState} {b : Block}
    (h : stepShortcut i st b = .ok st') : ∃ t, st' = finish st t st.filters := by
  unfold stepShortcut at h
  obtain ⟨fs, hfs, h⟩ := bind_ok_elim h
  obtain ⟨fr, hfr, h⟩ := bind_ok_elim h
  obtain ⟨ta, hta, h⟩ := bind_ok_elim h
  obtain ⟨tb, htb, h⟩ := bind_ok_elim h
  simp only [pure_eq_ok] at h
  exact ⟨_, (Except.ok.inj h).symm⟩

theorem stepYolo_shape {nc : Nat} {orc : Tensor → Nat × Nat} {i : Nat}
    {st st' : BuildState} {b : Block}
    (h : stepYolo nc orc i st b = .ok st') :
    ∃ a g t,
      ((∃ o, st.scale = true ∧ st.out_pred = some o ∧
          st' = { finish st t st.filters with
                  out_pred := some (.concatP o (.headP i a g t)) }) ∨
       (st.scale = false ∧
          st' = { finish st t st.filters with
                  out_pred := some (.headP i a g t), scale := true })) := by
  unfold stepYolo at h
  obtain ⟨ms, hms, h⟩ := bind_ok_elim h
  obtain ⟨mask, hmask, h⟩ := bind_ok_elim h
  obtain ⟨as_, has, h⟩ := bind_ok_elim h
  obtain ⟨anch, hanch, h⟩ := bind_ok_elim h
  obtain ⟨pairs, hpairs, h⟩ := bind_ok_elim h
  obtain ⟨sel, hsel, h⟩ := bind_ok_elim h
  by_cases hsc : st.scale
  · rw [if_pos hsc] at h
    cases hop : st.out_pred with
    | none => rw [hop] at h; exact absurd h (by simp)
    | some o =>
      rw [hop] at h
      simp only [pure_eq_ok] at h
      exact ⟨sel, _, _, Or.inl ⟨o, hsc, rfl, (Except.ok.inj h).symm⟩⟩
  · rw [if_neg hsc] at h
    simp only [pure_eq_ok] at h
    exact ⟨sel, _, _,
      Or.inr ⟨Bool.not_eq_true _ ▸ (by simpa using hsc), (Except.ok.inj h).symm⟩⟩

theorem step_cases {nc : Nat} {orc : Tensor → Nat × Nat} {i : Nat}
    {st st' : BuildState} {b : Block}
    (h : step nc orc i st b = .ok st') :
    ∃ ty, b.lookup "type" = some ty ∧
      ((ty = "convolutional" ∧ stepConv i st b = .ok st') ∨
       (ty = "upsample" ∧ stepUpsample st b = .ok st') ∨
       (ty = "route" ∧ stepRoute i st b = .ok st') ∨
       (ty = "shortcut" ∧ stepShortcut i st b = .ok st') ∨
       (ty = "yolo" ∧ stepYolo nc orc i st b = .ok st') ∨
       (ty ≠ "convolutional" ∧ ty ≠ "upsample" ∧ ty ≠ "route" ∧
        ty ≠ "shortcut" ∧ ty ≠ "yolo" ∧
        st' = finish st st.inputs st.filters)) := by
  unfold step at h
  obtain ⟨ty, hty, h⟩ := bind_ok_elim h
  refine ⟨ty, att_ok_elim hty, ?_⟩
  by_cases h1 : ty = "convolutional"
  · rw [if_pos h1] at h; exact Or.inl ⟨h1, h⟩
  rw [if_neg h1] at h
  by_cases h2 : ty = "upsample"
  · rw [if_pos h2] at h; exact Or.inr (Or.inl ⟨h2, h⟩)
  rw [if_neg h2] at h
  by_cases h3 : ty = "route"
  · rw [if_pos h3] at h; exact Or.inr (Or.inr (Or.inl ⟨h3, h⟩))
  rw [if_neg h3] at h
  by_cases h4 : ty = "shortcut"
  · rw [if_pos h4] at h; exact Or.inr (Or.inr (Or.inr (Or.inl ⟨h4, h⟩)))
  rw [if_neg h4] at h
  by_cases h5 : ty = "yolo"
  · rw [if_pos h5] at h
    exact Or.inr (Or.inr (Or.inr (Or.inr (Or.inl ⟨h5, h⟩))))
  rw [if_neg h5] at h
  simp only [pure_eq_ok] at h
  exact Or.inr (Or.inr (Or.inr (Or.inr (Or.inr
    ⟨h1, h2, h3, h4, h5, (Except.ok.inj h).symm⟩))))

theorem step_shape {nc : Nat} {orc : Tensor → Nat × Nat} {i : Nat}
    {st st' : BuildState} {b : Block}
    (h : step nc orc i st b = .ok st') :
    st'.outputs = st.outputs ++ [st'.inputs] ∧
    st'.output_filters = st.output_filters ++ [st'.filters] := by
  obtain ⟨ty, -, hc⟩ := step_cases h
  rcases hc with ⟨-, hb⟩ | ⟨-, hb⟩ | ⟨-, hb⟩ | ⟨-, hb⟩ | ⟨-, hb⟩ |
    ⟨-, -, -, -, -, hb⟩
  · obtain ⟨t, f, rfl⟩ := stepConv_shape hb; exact ⟨rfl, rfl⟩
  · obtain ⟨t, rfl⟩ := stepUpsample_shape hb; exact ⟨rfl, rfl⟩
  · obtain ⟨t, f, rfl⟩ := stepRoute_shape hb; exact ⟨rfl, rfl⟩
  · obtain ⟨t, rfl⟩ := stepShortcut_shape hb; exact ⟨rfl, rfl⟩
  · obtain ⟨a, g, t, hc⟩ := stepYolo_shape hb
    rcases hc with ⟨o, -, -, rfl⟩ | ⟨-, rfl⟩ <;> exact ⟨rfl, rfl⟩
  · subst hb; exact ⟨rfl, rfl⟩

theorem step_filters_carry {nc : Nat} {orc : Tensor → Nat × Nat} {i : Nat}
    {st st' : BuildState} {b : Block}
    (h : step nc orc i st b = .ok st') (hcr : isCR b = false) :
    st'.filters = st.filters := by
  obtain ⟨ty, hty, hc⟩ := step_cases h
  have hcv : ¬ b.lookup "type" = some "convolutional" := by
    intro hx
    simp [isCR, hx] at hcr
  have hrt : ¬ b.lookup "type" = some "route" := by
    intro hx
    simp [isCR, hx] at hcr
  rcases hc with ⟨he, hb⟩ | ⟨-, hb⟩ | ⟨he, hb⟩ | ⟨-, hb⟩ | ⟨-, hb⟩ |
    ⟨-, -, -, -, -, hb⟩
  · exact absurd (he ▸ hty) hcv
  · obtain ⟨t, rfl⟩ := stepUpsample_shape hb; rfl
  · exact absurd (he ▸ hty) hrt
  · obtain ⟨t, rfl⟩ := stepShortcut_shape hb; rfl
  · obtain ⟨a, g, t, hc⟩ := stepYolo_shape hb
    rcases hc with ⟨o, -, -, rfl⟩ | ⟨-, rfl⟩ <;> rfl
  · subst hb; rfl

theorem step_pred_other {nc : Nat} {orc : Tensor → Nat × Nat} {i : Nat}
    {st st' : BuildState} {b : Block}
    (h : step nc orc i st b = .ok st')
    (hty : ¬ b.lookup "type" = some "yolo") :
    st'.out_pred = st.out_pred ∧ st'.scale = st.scale := by
  obtain ⟨ty, hl, hc⟩ := step_cases h
  rcases hc with ⟨-, hb⟩ | ⟨-, hb⟩ | ⟨-, hb⟩ | ⟨-, hb⟩ | ⟨he, hb⟩ |
    ⟨-, -, -, -, -, hb⟩
  · obtain ⟨t, f, rfl⟩ := stepConv_shape hb; exact ⟨rfl, rfl⟩
  · obtain ⟨t, rfl⟩ := stepUpsample_shape hb; exact ⟨rfl, rfl⟩
  · obtain ⟨t, f, rfl⟩ := stepRoute_shape hb; exact ⟨rfl, rfl⟩
  · obtain ⟨t, rfl⟩ := stepShortcut_shape hb; exact ⟨rfl, rfl⟩
  · exact absurd (he ▸ hl) hty
  · subst hb; exact ⟨rfl, rfl⟩

theorem step_pred_yolo {nc : Nat} {orc : Tensor → Nat × Nat} {i : Nat}
    {st st' : BuildState} {b : Block}
    (h : step nc orc i st b = .ok st')
    (hty : b.lookup "type" = some "yolo")
    (hinv : st.scale = false → st.out_pred = none) :
    ∃ a g t, st'.out_pred = pushHead st.out_pred (.headP i a g t) ∧
      st'.scale = true := by
  obtain ⟨ty, hl, hc⟩ := step_cases h
  have hdisp : stepYolo nc orc i st b = .ok st' := by
    rcases hc with ⟨he, hb⟩ | ⟨he, hb⟩ | ⟨he, hb⟩ | ⟨he, hb⟩ | ⟨he, hb⟩ |
      ⟨h1, h2, h3, h4, h5, hb⟩
    · rw [hl, he] at hty; simp at hty
    · rw [hl, he] at hty; simp at hty
    · rw [hl, he] at hty; simp at hty
    · rw [hl, he] at hty; simp at hty
    · exact hb
    · rw [hl] at hty
      exact absurd (Option.some.inj hty) h5
  obtain ⟨a, g, t, hc'⟩ := stepYolo_shape hdisp
  rcases hc' with ⟨o, hsc, hop, rfl⟩ | ⟨hsc, rfl⟩
  · exact ⟨a, g, t, by simp [pushHead, hop], hsc⟩
  · exact ⟨a, g, t, by simp [pushHead, hinv hsc], rfl⟩

theorem get?_append_stable {α : Type} {l1 l2 : List α} {n : Nat} {v : α}
    (h : l1.get? n = some v) : (l1 ++ l2).get? n = some v := by
  obtain ⟨hlt, -⟩ := List.get?_eq_some.mp h
  rw [List.get?_append hlt]
  exact h

theorem runBlocks_shape {nc : Nat} {orc : Tensor → Nat × Nat} :
    ∀ {bs : List Block} {i : Nat} {st st' : BuildState},
    runBlocks nc orc i st bs = .ok st' →
    ∃ tl fl, st'.outputs = st.outputs ++ tl ∧
      st'.output_filters = st.output_filters ++ fl ∧
      tl.length = bs.length ∧ fl.length = bs.length := by
  intro bs
  induction bs with
  | nil =>
    intro i st st' h
    cases h
    exact ⟨[], [], by simp, by simp, rfl, rfl⟩
  | cons b bs ih =>
    intro i st st' h
    obtain ⟨st1, h1, h2⟩ := bind_ok_elim h
    obtain ⟨ho1, hf1⟩ := step_shape h1
    obtain ⟨tl, fl, ho, hf, htl, hfl⟩ := ih h2
    refine ⟨st1.inputs :: tl, st1.filters :: fl, ?_, ?_, by simp [htl],
      by simp [hfl]⟩
    · rw [ho, ho1]; simp
    · rw [hf, hf1]; simp

theorem runBlocks_pred {nc : Nat} {orc : Tensor → Nat × Nat} :
    ∀ {bs : List Block} {i : Nat} {st st' : BuildState},
    runBlocks nc orc i st bs = .ok st' →
    (st.scale = false → st.out_pred = none) →
    ∃ ps : List Pred, st'.out_pred = pushHeads st.out_pred ps ∧
      ps.map predIdx = yoloPositions i bs ∧
      ∀ p ∈ ps, ∃ n a g t, p = .headP n a g t := by
  intro bs
  induction bs with
  | nil =>
    intro i st st' h _
    cases h
    exact ⟨[], rfl, rfl, by simp⟩
  | cons b bs ih =>
    intro i st st' h hinv
    obtain ⟨st1, h1, h2⟩ := bind_ok_elim h
    by_cases hty : b.lookup "type" = some "yolo"
    · obtain ⟨a, g, t, hpush, hscale⟩ := step_pred_yolo h1 hty hinv
      have hinv1 : st1.scale = false → st1.out_pred = none := by
        intro hx
        rw [hscale] at hx
        cases hx
      obtain ⟨ps, hps, hmap, hhead⟩ := ih h2 hinv1
      refine ⟨.headP i a g t :: ps, ?_, ?_, ?_⟩
      · rw [hps, hpush]; rfl
      · simp only [List.map_cons, hmap, yoloPositions, if_pos hty]
        rfl
      · intro p hp
        rcases List.mem_cons.mp hp with rfl | hp
        · exact ⟨i, a, g, t, rfl⟩
        · exact hhead p hp
    · obtain ⟨hop, hsc⟩ := step_pred_other h1 hty
      have hinv1 : st1.scale = false → st1.out_pred = none := by
        intro hx
        rw [hsc] at hx
        rw [hop]
        exact hinv hx
      obtain ⟨ps, hps, hmap, hhead⟩ := ih h2 hinv1
      refine ⟨ps, by rw [hps, hop], ?_, hhead⟩
      simp only [hmap, yoloPositions, if_neg hty]
      rfl

theorem runBlocks_filters {nc : Nat} {orc : Tensor → Nat × Nat} :
    ∀ {bs : List Block} {i : Nat} {st st' : BuildState},
    runBlocks nc orc i st bs = .ok st' →
    ∀ j, j < bs.length → isCR (bs.getD j []) = false →
    ∃ v, st'.output_filters.get? (st.output_filters.length + j) = some v ∧
      ((∃ k, lastCR bs j = some k ∧
          st'.output_filters.get? (st.output_filters.length + k) = some v) ∨
       (lastCR bs j = none ∧ v = st.filters)) := by
  intro bs
  induction bs with
  | nil =>
    intro i st st' _ j hj
    exact absurd hj (by simp)
  | cons b bs ih =>
    intro i st st' h j hj hcr
    obtain ⟨st1, h1, h2⟩ := bind_ok_elim h
    have hf1 : st1.output_filters = st.output_filters ++ [st1.filters] :=
      (step_shape h1).2
    have hlen1 : st1.output_filters.length = st.output_filters.length + 1 := by
      rw [hf1]; simp
    have hbase : st1.output_filters.get? st.output_filters.length =
        some st1.filters := by
      rw [hf1]
      exact List.get?_concat_length _ _
    obtain ⟨-, fl, -, hfl, -, -⟩ := runBlocks_shape h2
    cases j with
    | zero =>
      have hcrb : isCR b = false := hcr
      have hfil : st1.filters = st.filters := step_filters_carry h1 hcrb
      refine ⟨st.filters, ?_, Or.inr ⟨rfl, rfl⟩⟩
      rw [Nat.add_zero, hfl]
      exact get?_append_stable (hfil ▸ hbase)
    | succ j =>
      have hj' : j < bs.length := by
        simpa using Nat.lt_of_succ_lt_succ hj
      have hcr' : isCR (bs.getD j []) = false := hcr
      obtain ⟨v, hv, hdisj⟩ := ih h2 j hj' hcr'
      have hidx : st1.output_filters.length + j =
          st.output_filters.length + (j + 1) := by omega
      refine ⟨v, by rw [← hidx]; exact hv, ?_⟩
      rcases hdisj with ⟨k, hk, hkv⟩ | ⟨hnone, hveq⟩
      · refine Or.inl ⟨k + 1, ?_, ?_⟩
        · show lastCR (b :: bs) (j + 1) = some (k + 1)
          unfold lastCR
          rw [hk]
        · have : st1.output_filters.length + k =
              st.output_filters.length + (k + 1) := by omega
          rw [← this]
          exact hkv
      · by_cases hcrb : isCR b = true
        · refine Or.inl ⟨0, ?_, ?_⟩
          · show lastCR (b :: bs) (j + 1) = some 0
            unfold lastCR
            rw [hnone, if_pos hcrb]
          · rw [Nat.add_zero, hfl]
            exact get?_append_stable (hveq ▸ hbase)
        · have hcrb' : isCR b = false := by
            cases hx : isCR b
            · rfl
            · exact absurd hx hcrb
          refine Or.inr ⟨?_, ?_⟩
          · show lastCR (b :: bs) (j + 1) = none
            unfold lastCR
            rw [hnone, if_neg (by simp [hcrb'])]
          · rw [hveq, step_filters_carry h1 hcrb']

theorem decodeRecord_length {sig e : ℚ → ℚ} {C : Nat} {anc : Int × Int}
    {cell stride : Nat × Nat} {raw : List ℚ} (h : raw.length = 5 + C) :
    (decodeRecord sig e C anc cell stride raw).length = 5 + C := by
  simp [decodeRecord, h]
  omega

theorem decodeHead_count {C A h w : Nat} {flat : List ℚ}
    (hflat : flat.length = h * w * A * (5 + C)) :
    flat.length / (5 + C) = A * h * w := by
  rw [hflat, Nat.mul_div_cancel _ (by omega)]
  ring

theorem decodeHead_length (sig e : ℚ → ℚ) (C : Nat)
    (anchors : List (Int × Int)) (inH inW h w : Nat) (flat : List ℚ)
    (hflat : flat.length = h * w * anchors.length * (5 + C)) :
    (decodeHead sig e C anchors inH inW h w flat).length =
      anchors.length * h * w := by
  simp only [decodeHead, List.length_map, List.length_range]
  exact decodeHead_count hflat

theorem decodeHead_get? (sig e : ℚ → ℚ) (C : Nat)
    (anchors : List (Int × Int)) (inH inW h w : Nat) (flat : List ℚ)
    (r : Nat)
    (hflat : flat.length = h * w * anchors.length * (5 + C))
    (hr : r < anchors.length * h * w) :
    (decodeHead sig e C anchors inH inW h w flat).get? r =
      some (decodeRecord sig e C (anchors.getD (r % anchors.length) (0, 0))
        (cellOf anchors.length h r) (inH / h, inW / w)
        ((flat.drop (r * (5 + C))).take (5 + C))) := by
  have hN : flat.length / (5 + C) = anchors.length * h * w :=
    decodeHead_count hflat
  simp only [decodeHead, List.get?_map, List.get?_range (hN ▸ hr : r < flat.length / (5 + C)),
    Option.map_some']

/-- Claim C4: for every yolo block whose input has spatial grid shape
(H, W) and whose mask selects A anchors (so the flat head data has
`H * W * A * (5 + num_classes)` entries), the decoded per-head output
consists of exactly `A * H * W` box records, each with exactly
`5 + num_classes` channels. -/
theorem yolo_head_record_shape (sig e : ℚ → ℚ) (C : Nat)
    (anchors : List (Int × Int)) (inH inW h w : Nat) (flat : List ℚ)
    (hflat : flat.length = h * w * anchors.length * (5 + C)) :
    (decodeHead sig e C anchors inH inW h w flat).length =
      anchors.length * h * w ∧
    ∀ rec ∈ decodeHead sig e C anchors inH inW h w flat,
      rec.length = 5 + C := by
  refine ⟨decodeHead_length sig e C anchors inH inW h w flat hflat, ?_⟩
  intro rec hrec
  simp only [decodeHead, List.mem_map, List.mem_range] at hrec
  obtain ⟨r, hr, rfl⟩ := hrec
  have hr' : r + 1 ≤ flat.length / (5 + C) := hr
  have hle : r * (5 + C) + (5 + C) ≤ flat.length := by
    have h1 : (r + 1) * (5 + C) ≤ flat.length / (5 + C) * (5 + C) :=
      Nat.mul_le_mul_right _ hr'
    have h2 : flat.length / (5 + C) * (5 + C) ≤ flat.length :=
      Nat.div_mul_le_self _ _
    calc r * (5 + C) + (5 + C) = (r + 1) * (5 + C) := by ring
    _ ≤ flat.length / (5 + C) * (5 + C) := h1
    _ ≤ flat.length := h2
  exact decodeRecord_length (by simp [List.length_take, List.length_drop]; omega)

/-- Witness for C4: a head with one anchor on a 4 x 4 grid and no
classes (80 flat entries) decodes to 16 records of 5 channels. -/
theorem yolo_head_record_shape_witness :
    (decodeHead (fun _ => (1 : ℚ) / 2) id 0 [(10, 13)] 128 128 4 4
        (List.replicate 80 0)).length = 16 ∧
    ∀ rec ∈ decodeHead (fun _ => (1 : ℚ) / 2) id 0 [(10, 13)] 128 128 4 4
        (List.replicate 80 0), rec.length = 5 := by
  have h := yolo_head_record_shape (fun _ => (1 : ℚ) / 2) id 0 [(10, 13)]
    128 128 4 4 (List.replicate 80 0) (by simp)
  simpa using h

/-- Claim C2: for every yolo head, every record index, the decoded box
center is `(sigmoid(raw_offset) + (cx, cy)) * stride`, where the grid
cell of record `r` is `((r / A) % grid_h, (r / A) / grid_h)` and
`stride = (input_h / grid_h, input_w / grid_w)` in integer floor
division; in particular record 14 of a one-anchor 4 x 4 grid head with
stride (32, 32) and sigmoid value 1/2 decodes to ((2 + 1/2) * 32,
(3 + 1/2) * 32) = (80, 112), realized by the witness below. -/
theorem yolo_center_affine_decode (sig e : ℚ → ℚ) (C : Nat)
    (anchors : List (Int × Int)) (inH inW h w : Nat) (flat : List ℚ) (r : Nat)
    (hflat : flat.length = h * w * anchors.length * (5 + C))
    (hr : r < anchors.length * h * w) :
    ((decodeHead sig e C anchors inH inW h w flat).getD r []).getD 0 0 =
      (sig (flat.getD (r * (5 + C)) 0) +
        (((r / anchors.length) % h : Nat) : ℚ)) * ((inH / h : Nat) : ℚ) ∧
    ((decodeHead sig e C anchors inH inW h w flat).getD r []).getD 1 0 =
      (sig (flat.getD (r * (5 + C) + 1) 0) +
        (((r / anchors.length) / h : Nat) : ℚ)) * ((inW / w : Nat) : ℚ) := by
  have hg := decodeHead_get? sig e C anchors inH inW h w flat r hflat hr
  have hrec : (decodeHead sig e C anchors inH inW h w flat).getD r [] =
      decodeRecord sig e C (anchors.getD (r % anchors.length) (0, 0))
        (cellOf anchors.length h r) (inH / h, inW / w)
        ((flat.drop (r * (5 + C))).take (5 + C)) := by
    unfold List.getD
    rw [hg]
    rfl
  rw [hrec]
  have h0 : ((flat.drop (r * (5 + C))).take (5 + C)).getD 0 0 =
      flat.getD (r * (5 + C)) 0 := by
    unfold List.getD
    rw [List.get?_take (by omega), List.get?_drop, Nat.add_zero]
  have h1 : ((flat.drop (r * (5 + C))).take (5 + C)).getD 1 0 =
      flat.getD (r * (5 + C) + 1) 0 := by
    unfold List.getD
    rw [List.get?_take (by omega), List.get?_drop]
  constructor
  · unfold decodeRecord
    rw [List.getD_cons_zero, h0]
    rfl
  · unfold decodeRecord
    rw [List.getD_cons_succ, List.getD_cons_zero, h1]
    rfl

/-- Witness for C2, realizing the spec's literal example: grid cell
(2, 3), stride (32, 32), sigmoid value 1/2 on both offsets, giving the
decoded center (80, 112). -/
theorem yolo_center_affine_decode_witness :
    ((decodeHead (fun _ => (1 : ℚ) / 2) id 0 [(10, 13)] 128 128 4 4
        (List.replicate 80 0)).getD 14 []).getD 0 0 = 80 ∧
    ((decodeHead (fun _ => (1 : ℚ) / 2) id 0 [(10, 13)] 128 128 4 4
        (List.replicate 80 0)).getD 14 []).getD 1 0 = 112 := by
  have h := yolo_center_affine_decode (fun _ => (1 : ℚ) / 2) id 0 [(10, 13)]
    128 128 4 4 (List.replicate 80 0) 14 (by simp) (by norm_num)
  obtain ⟨h0, h1⟩ := h
  refine ⟨?_, ?_⟩
  · rw [h0]; norm_num
  · rw [h1]; norm_num

/-- Claim C1: for every route block at index `i` whose `layers`
attribute holds two integers `start` and `endRaw` (with
`end = endRaw - i`), the resulting current tensor is the channel-wise
concatenation of the tensors cached at `i + start` and `i + end`, and
the filter count recorded at index `i` is the sum of the filter counts
recorded for those same two layers. -/
theorem route_two_refs_concat_and_sum (nc : Nat) (orc : Tensor → Nat × Nat)
    (i : Nat) (st st' : BuildState) (b : Block) (ls s1 s2 : String)
    (start endRaw : Int)
    (hlen : st.output_filters.length = i) (holen : st.outputs.length = i)
    (htype : b.lookup "type" = some "route")
    (hl : b.lookup "layers" = some ls)
    (hparts : pySplit ',' ls = [s1, s2])
    (hs1 : pyInt s1 = .ok start) (hs2 : pyInt s2 = .ok endRaw)
    (hstep : step nc orc i st b = .ok st') :
    ∃ (ja jb : Nat) (ta tb : Tensor) (fa fb v : Option Int),
      ((i : Int) + start) = ja ∧ ((i : Int) + (endRaw - i)) = jb ∧
      st.outputs.get? ja = some ta ∧ st.outputs.get? jb = some tb ∧
      st'.inputs = .concatLast ta tb ∧
      st.output_filters.get? ja = some fa ∧
      st.output_filters.get? jb = some fb ∧
      pyAdd fa fb = .ok v ∧
      st'.output_filters.get? i = some v ∧
      (∀ a c : Int, fa = some a → fb = some c → v = some (a + c)) := by
  obtain ⟨ty, hty, hc⟩ := step_cases hstep
  rw [htype] at hty
  have hty2 : ty = "route" := (Option.some.inj hty).symm
  subst hty2
  have hroute : stepRoute i st b = .ok st' := by
    rcases hc with ⟨he, -⟩ | ⟨he, -⟩ | ⟨-, hb⟩ | ⟨he, -⟩ | ⟨he, -⟩ |
      ⟨-, -, h3, -, -, -⟩
    · exact absurd he (by decide)
    · exact absurd he (by decide)
    · exact hb
    · exact absurd he (by decide)
    · exact absurd he (by decide)
    · exact absurd rfl h3
  unfold stepRoute at hroute
  rw [att_ok hl] at hroute
  simp only [ok_bind] at hroute
  rw [hparts] at hroute
  simp only [List.headD_cons, List.getD_cons_succ, List.getD_cons_zero] at hroute
  rw [hs1] at hroute
  simp only [ok_bind] at hroute
  rw [if_pos (by simp)] at hroute
  rw [hs2] at hroute
  simp only [ok_bind] at hroute
  have hstep := hroute
  obtain ⟨fa, hfa, hstep⟩ := bind_ok_elim hstep
  obtain ⟨fb, hfb, hstep⟩ := bind_ok_elim hstep
  obtain ⟨v, hv, hstep⟩ := bind_ok_elim hstep
  obtain ⟨ta, hta, hstep⟩ := bind_ok_elim hstep
  obtain ⟨tb, htb, hstep⟩ := bind_ok_elim hstep
  simp only [pure_eq_ok] at hstep
  have hst' : st' = finish st (.concatLast ta tb) v := (Except.ok.inj hstep).symm
  subst hst'
  obtain ⟨hta0, hta1, hta2⟩ := dget_ok hta
  obtain ⟨htb0, htb1, htb2⟩ := dget_ok htb
  obtain ⟨-, hfa2⟩ := pyGet_ok_nonneg hta0 hfa
  rw [holen] at htb1
  have he : endRaw - (i : Int) < 0 := by omega
  obtain ⟨hfb0, hfb1, hfb2⟩ := pyGet_ok_neg he hfb
  have hlenZ : (st.output_filters.length : Int) = (i : Int) := by
    exact_mod_cast hlen
  have hidx : ((endRaw - (i : Int)) + (st.output_filters.length : Int)).toNat =
      ((i : Int) + (endRaw - (i : Int))).toNat := by
    rw [hlenZ]
    congr 1
    ring
  rw [hidx] at hfb2
  refine ⟨((i : Int) + start).toNat, ((i : Int) + (endRaw - i)).toNat,
    ta, tb, fa, fb, v, (Int.toNat_of_nonneg hta0).symm,
    (Int.toNat_of_nonneg htb0).symm, hta2, htb2, rfl, hfa2, hfb2, hv, ?_, ?_⟩
  · show (st.output_filters ++ [v]).get? i = some v
    rw [← hlen]
    exact List.get?_concat_length _ _
  · intro a c ha hc
    exact pyAdd_ok_some ha hc hv

/-- Witness for C1: at loop index 2 with cached filter counts 8 and 16,
the route block `layers = -1, 0` concatenates the tensors cached at
indices 1 and 0 and records 16 + 8 = 24. -/
theorem route_two_refs_concat_and_sum_witness :
    ∃ st', step 80 sampleOracle 2 sampleSt routeBlk2 = .ok st' ∧
      ∃ (ja jb : Nat) (ta tb : Tensor) (fa fb v : Option Int),
        ((2 : Int) + (-1 : Int)) = ja ∧ ((2 : Int) + ((0 : Int) - 2)) = jb ∧
        sampleSt.outputs.get? ja = some ta ∧
        sampleSt.outputs.get? jb = some tb ∧
        st'.inputs = .concatLast ta tb ∧
        sampleSt.output_filters.get? ja = some fa ∧
        sampleSt.output_filters.get? jb = some fb ∧
        pyAdd fa fb = .ok v ∧
        st'.output_filters.get? 2 = some v ∧
        (∀ a c : Int, fa = some a → fb = some c → v = some (a + c)) := by
  refine ⟨finish sampleSt (.concatLast tSampleB tSampleA) (some 24),
    by rfl, ?_⟩
  exact route_two_refs_concat_and_sum 80 sampleOracle 2 _ _ routeBlk2
    "-1, 0" "-1" " 0" (-1) 0 rfl rfl rfl rfl rfl rfl rfl (by rfl)

/-- Claim C7: for every route block at index `i` whose `layers`
attribute holds a single integer `start`, the resulting current tensor
is exactly the tensor cached at index `i + start` (the same symbolic
tensor: an alias), and the filter count recorded at index `i` is the
entry recorded for that layer, copied rather than summed. -/
theorem route_single_ref_alias (nc : Nat) (orc : Tensor → Nat × Nat)
    (i : Nat) (st st' : BuildState) (b : Block) (ls s1 : String) (start : Int)
    (hlen : st.output_filters.length = i)
    (htype : b.lookup "type" = some "route")
    (hl : b.lookup "layers" = some ls)
    (hparts : pySplit ',' ls = [s1])
    (hs1 : pyInt s1 = .ok start)
    (hstep : step nc orc i st b = .ok st') :
    ∃ (ja : Nat) (ta : Tensor) (fa : Option Int),
      ((i : Int) + start) = ja ∧
      st.outputs.get? ja = some ta ∧
      st'.inputs = ta ∧
      st.output_filters.get? ja = some fa ∧
      st'.output_filters.get? i = some fa := by
  obtain ⟨ty, hty, hc⟩ := step_cases hstep
  rw [htype] at hty
  have hty2 : ty = "route" := (Option.some.inj hty).symm
  subst hty2
  have hroute : stepRoute i st b = .ok st' := by
    rcases hc with ⟨he, -⟩ | ⟨he, -⟩ | ⟨-, hb⟩ | ⟨he, -⟩ | ⟨he, -⟩ |
      ⟨-, -, h3, -, -, -⟩
    · exact absurd he (by decide)
    · exact absurd he (by decide)
    · exact hb
    · exact absurd he (by decide)
    · exact absurd he (by decide)
    · exact absurd rfl h3
  unfold stepRoute at hroute
  rw [att_ok hl] at hroute
  simp only [ok_bind] at hroute
  rw [hparts] at hroute
  simp only [List.headD_cons] at hroute
  rw [hs1] at hroute
  simp only [ok_bind] at hroute
  rw [if_neg (by simp)] at hroute
  have hstep := hroute
  obtain ⟨fa, hfa, hstep⟩ := bind_ok_elim hstep
  obtain ⟨ta, hta, hstep⟩ := bind_ok_elim hstep
  simp only [pure_eq_ok] at hstep
  have hst' : st' = finish st ta fa := (Except.ok.inj hstep).symm
  subst hst'
  obtain ⟨hta0, hta1, hta2⟩ := dget_ok hta
  obtain ⟨-, hfa2⟩ := pyGet_ok_nonneg hta0 hfa
  refine ⟨((i : Int) + start).toNat, ta, fa,
    (Int.toNat_of_nonneg hta0).symm, hta2, rfl, hfa2, ?_⟩
  show (st.output_filters ++ [fa]).get? i = some fa
  rw [← hlen]
  exact List.get?_concat_length _ _

/-- Witness for C7: at loop index 2, the route block `layers = -1`
aliases the tensor cached at index 1 and copies its filter count 16. -/
theorem route_single_ref_alias_witness :
    ∃ st', step 80 sampleOracle 2 sampleSt routeBlk1 = .ok st' ∧
      ∃ (ja : Nat) (ta : Tensor) (fa : Option Int),
        ((2 : Int) + (-1 : Int)) = ja ∧
        sampleSt.outputs.get? ja = some ta ∧
        st'.inputs = ta ∧
        sampleSt.output_filters.get? ja = some fa ∧
        st'.output_filters.get? 2 = some fa := by
  refine ⟨finish sampleSt tSampleB (some 16), by rfl, ?_⟩
  exact route_single_ref_alias 80 sampleOracle 2 _ _ routeBlk1 "-1" "-1" (-1)
    rfl rfl rfl rfl rfl (by rfl)

/-- Claim C6: for every shortcut block at index `i` with integer
attribute `from`, the resulting current tensor is the elementwise sum
of the tensor cached at index `i - 1` (always the immediately preceding
layer, whatever the magnitude of `from`) and the tensor cached at index
`i + from`. -/
theorem shortcut_adds_prev_and_from (nc : Nat) (orc : Tensor → Nat × Nat)
    (i : Nat) (st st' : BuildState) (b : Block) (fs : String) (fr : Int)
    (htype : b.lookup "type" = some "shortcut")
    (hf : b.lookup "from" = some fs) (hfi : pyInt fs = .ok fr)
    (hstep : step nc orc i st b = .ok st') :
    ∃ (ta tb : Tensor), 1 ≤ i ∧ 0 ≤ (i : Int) + fr ∧
      st.outputs.get? (i - 1) = some ta ∧
      st.outputs.get? ((i : Int) + fr).toNat = some tb ∧
      st'.inputs = .addT ta tb := by
  obtain ⟨ty, hty, hc⟩ := step_cases hstep
  rw [htype] at hty
  have hty2 : ty = "shortcut" := (Option.some.inj hty).symm
  subst hty2
  have hshort : stepShortcut i st b = .ok st' := by
    rcases hc with ⟨he, -⟩ | ⟨he, -⟩ | ⟨he, -⟩ | ⟨-, hb⟩ | ⟨he, -⟩ |
      ⟨-, -, -, h4, -, -⟩
    · exact absurd he (by decide)
    · exact absurd he (by decide)
    · exact absurd he (by decide)
    · exact hb
    · exact absurd he (by decide)
    · exact absurd rfl h4
  unfold stepShortcut at hshort
  rw [att_ok hf] at hshort
  simp only [ok_bind] at hshort
  rw [hfi] at hshort
  simp only [ok_bind] at hshort
  have hstep := hshort
  obtain ⟨ta, hta, hstep⟩ := bind_ok_elim hstep
  obtain ⟨tb, htb, hstep⟩ := bind_ok_elim hstep
  simp only [pure_eq_ok] at hstep
  have hst' : st' = finish st (.addT ta tb) st.filters :=
    (Except.ok.inj hstep).symm
  subst hst'
  obtain ⟨hta0, hta1, hta2⟩ := dget_ok hta
  obtain ⟨htb0, htb1, htb2⟩ := dget_ok htb
  have hi1 : 1 ≤ i := by omega
  have hnat : ((i : Int) - 1).toNat = i - 1 := by omega
  rw [hnat] at hta2
  exact ⟨ta, tb, hi1, htb0, hta2, htb2, rfl⟩

/-- Witness for C6: at loop index 2, the shortcut block `from = -2`
sums the tensors cached at indices 1 and 0. -/
theorem shortcut_adds_prev_and_from_witness :
    ∃ st', step 80 sampleOracle 2 sampleSt shortBlk = .ok st' ∧
      ∃ (ta tb : Tensor), 1 ≤ 2 ∧ 0 ≤ (2 : Int) + (-2 : Int) ∧
        sampleSt.outputs.get? (2 - 1) = some ta ∧
        sampleSt.outputs.get? ((2 : Int) + (-2 : Int)).toNat = some tb ∧
        st'.inputs = .addT ta tb := by
  refine ⟨finish sampleSt (.addT tSampleB tSampleA) sampleSt.filters,
    by rfl, ?_⟩
  exact shortcut_adds_prev_and_from 80 sampleOracle 2 _ _ shortBlk "-2" (-2)
    rfl rfl rfl (by rfl)

/-- Claim C5: for every convolutional block, if its stride attribute
exceeds 1 the input is zero-padded by one unit on top and left and a
valid-padding convolution at that stride is applied, otherwise a
same-padding convolution at stride 1 is applied (the tensor library
rejects non-positive strides, so a successful build forces
`1 ≤ stride`); the convolution carries a bias exactly when the block
has no `batch_normalize` attribute; batch normalization, when present,
follows the convolution immediately; and a leaky rectification with
negative slope 1/10 is applied last when the activation is leaky. -/
theorem conv_block_structure (nc : Nat) (orc : Tensor → Nat × Nat)
    (i : Nat) (st st' : BuildState) (b : Block) (act fs ks ss : String)
    (f k s : Int)
    (htype : b.lookup "type" = some "convolutional")
    (hact : b.lookup "activation" = some act)
    (hf : b.lookup "filters" = some fs) (hfi : pyInt fs = .ok f)
    (hk : b.lookup "size" = some ks) (hki : pyInt ks = .ok k)
    (hs : b.lookup "stride" = some ss) (hsi : pyInt ss = .ok s)
    (hstep : step nc orc i st b = .ok st') :
    1 ≤ s ∧
    ((hasAttr b "batch_normalize" = false) ↔
      b.lookup "batch_normalize" = none) ∧
    (1 < s →
      st'.inputs =
        (let c := Tensor.conv2D f k s .valid (!hasAttr b "batch_normalize")
          ("conv_" ++ toString i) (.zeroPad2D 1 0 1 0 st.inputs)
         let c2 := if hasAttr b "batch_normalize"
           then Tensor.batchNorm ("bnorm_" ++ toString i) c else c
         if act = "leaky"
           then Tensor.leakyReLU (1 / 10) ("leaky_" ++ toString i) c2
           else c2)) ∧
    (¬ 1 < s → s = 1 ∧
      st'.inputs =
        (let c := Tensor.conv2D f k 1 .same (!hasAttr b "batch_normalize")
          ("conv_" ++ toString i) st.inputs
         let c2 := if hasAttr b "batch_normalize"
           then Tensor.batchNorm ("bnorm_" ++ toString i) c else c
         if act = "leaky"
           then Tensor.leakyReLU (1 / 10) ("leaky_" ++ toString i) c2
           else c2)) := by
  obtain ⟨ty, hty, hc⟩ := step_cases hstep
  rw [htype] at hty
  have hty2 : ty = "convolutional" := (Option.some.inj hty).symm
  subst hty2
  have hconv : stepConv i st b = .ok st' := by
    rcases hc with ⟨-, hb⟩ | ⟨he, -⟩ | ⟨he, -⟩ | ⟨he, -⟩ | ⟨he, -⟩ |
      ⟨h1, -, -, -, -, -⟩
    · exact hb
    · exact absurd he (by decide)
    · exact absurd he (by decide)
    · exact absurd he (by decide)
    · exact absurd he (by decide)
    · exact absurd rfl h1
  unfold stepConv at hconv
  rw [att_ok hact] at hconv
  simp only [ok_bind] at hconv
  rw [att_ok hf] at hconv
  simp only [ok_bind] at hconv
  rw [hfi] at hconv
  simp only [ok_bind] at hconv
  rw [att_ok hk] at hconv
  simp only [ok_bind] at hconv
  rw [hki] at hconv
  simp only [ok_bind] at hconv
  rw [att_ok hs] at hconv
  simp only [ok_bind] at hconv
  rw [hsi] at hconv
  simp only [ok_bind] at hconv
  by_cases hlt : s < 1
  · rw [if_pos hlt] at hconv
    exact absurd hconv (by simp)
  rw [if_neg hlt] at hconv
  have hge : 1 ≤ s := by omega
  simp only [pure_eq_ok] at hconv
  have hst' : st' = _ := (Except.ok.inj hconv).symm
  subst hst'
  refine ⟨hge, ?_, ?_, ?_⟩
  · cases hbn : b.lookup "batch_normalize" <;> simp [hasAttr, hbn]
  · intro hgt
    show (if act = "leaky" then _ else _) = _
    simp only [hgt, if_true]
  · intro hngt
    have hseq : s = 1 := by omega
    subst hseq
    refine ⟨rfl, ?_⟩
    show (if act = "leaky" then _ else _) = _
    simp only [hngt, if_false]

/-- Witness for C5: a batch-normalized leaky stride-1 convolution with
32 filters applied at loop index 0 from the initial state. -/
theorem conv_block_structure_witness :
    ∃ st', step 80 sampleOracle 0 (initState (416, 416, 3)) convBlk =
      .ok st' ∧
      (¬ (1 : Int) < 1 → (1 : Int) = 1 ∧
        st'.inputs =
          (let c := Tensor.conv2D 32 3 1 .same
            (!hasAttr convBlk "batch_normalize") ("conv_" ++ toString 0)
            (initState (416, 416, 3)).inputs
           let c2 := if hasAttr convBlk "batch_normalize"
             then Tensor.batchNorm ("bnorm_" ++ toString 0) c else c
           if "leaky" = "leaky"
             then Tensor.leakyReLU (1 / 10) ("leaky_" ++ toString 0) c2
             else c2)) := by
  refine ⟨finish (initState (416, 416, 3))
    (.leakyReLU (1 / 10) ("leaky_" ++ toString 0)
      (.batchNorm ("bnorm_" ++ toString 0)
        (.conv2D 32 3 1 .same (!hasAttr convBlk "batch_normalize")
          ("conv_" ++ toString 0) (initState (416, 416, 3)).inputs)))
    (some 32), rfl, ?_⟩
  exact (conv_block_structure 80 sampleOracle 0 (initState (416, 416, 3)) _
    convBlk "leaky" "32" "3" "1" 32 3 1 rfl rfl rfl rfl rfl rfl rfl rfl
    rfl).2.2.2

/-- Counterexample to claim C9: a block of unrecognized type `maxpool`
does not make graph assembly fail; the step succeeds, leaving the
current tensor unchanged and caching it. -/
theorem unknown_type_no_error :
    step 80 sampleOracle 0 (initState (416, 416, 3)) maxpoolBlk =
      .ok (finish (initState (416, 416, 3))
        (initState (416, 416, 3)).inputs none) := rfl

/-- Amended claim C9: a block whose type is outside the recognized set
is silently skipped: the step succeeds, the current tensor is unchanged
and is cached at index `i`, and the carried-over filter value is
appended. -/
theorem unknown_type_silently_skipped (nc : Nat) (orc : Tensor → Nat × Nat)
    (i : Nat) (st : BuildState) (b : Block) (ty : String)
    (htype : b.lookup "type" = some ty)
    (h1 : ty ≠ "convolutional") (h2 : ty ≠ "upsample") (h3 : ty ≠ "route")
    (h4 : ty ≠ "shortcut") (h5 : ty ≠ "yolo") :
    step nc orc i st b =
      .ok ({ st with
             outputs := st.outputs ++ [st.inputs]
             output_filters := st.output_filters ++ [st.filters] }) := by
  unfold step
  rw [att_ok htype]
  rw [ok_bind]
  rw [if_neg h1, if_neg h2, if_neg h3, if_neg h4, if_neg h5]
  rfl

/-- Witness for the amended C9, at a concrete unrecognized block. -/
theorem unknown_type_silently_skipped_witness :
    step 80 sampleOracle 3 sampleSt maxpoolBlk =
      .ok ({ sampleSt with
             outputs := sampleSt.outputs ++ [sampleSt.inputs]
             output_filters :=
               sampleSt.output_filters ++ [sampleSt.filters] }) :=
  unknown_type_silently_skipped 80 sampleOracle 3 sampleSt maxpoolBlk
    "maxpool" rfl (by decide) (by decide) (by decide) (by decide) (by decide)

theorem parseLoop_append {lines : List String} :
    ∀ {holder : Block} {blocks res : List Block},
    parseLoop lines holder blocks = .ok res → ∃ t, res = blocks ++ t := by
  induction lines with
  | nil =>
    intro holder blocks res h
    cases h
    exact ⟨[holder], rfl⟩
  | cons l rest ih =>
    intro holder blocks res h
    unfold parseLoop at h
    split at h
    case isTrue =>
      dsimp only at h
      cases hpc : procLine ("type=" ++ rstrip (sliceInner l)) [] with
      | error e =>
        rw [hpc] at h
        exact absurd h (by simp)
      | ok holder' =>
        rw [hpc] at h
        obtain ⟨t, ht⟩ := ih h
        by_cases hh : holder = []
        · rw [if_pos hh] at ht
          exact ⟨t, ht⟩
        · rw [if_neg hh] at ht
          exact ⟨[holder] ++ t, by rw [ht, List.append_assoc]⟩
    case isFalse =>
      cases hpc : procLine l holder with
      | error e =>
        rw [hpc] at h
        exact absurd h (by simp)
      | ok holder' =>
        rw [hpc] at h
        exact ih h

/-- Counterexample to claim C8: a `key=value` line before any bracketed
header does not make the parser fail; parsing succeeds and the stray
binding becomes a headerless first descriptor. -/
theorem keyvalue_before_header_no_error :
    parse_cfg ["key=value", "[net]", "batch=1"] =
      .ok [[("key", "value")], [("type", "net"), ("batch", "1")]] := rfl

/-- Amended claim C8: when the first line of the source is a `key=value`
line (no bracket, no comment marker, exactly one `=`) and the second
line is a bracketed header, parsing does not fail on the stray line: if
it succeeds overall, the first descriptor emitted is exactly the
headerless singleton `key : value` (with Python `rstrip`/`lstrip`
applied), later skipped in the leading position by the builder. -/
theorem keyvalue_before_header_first_block
    (line hdr : String) (rest : List String) (k v : String)
    (blocks : List Block)
    (hne : ¬ line = "") (hnb : startsWithChar '[' line = false)
    (hnc : startsWithChar '#' line = false)
    (hsplit : pySplit '=' line = [k, v])
    (hh1 : ¬ hdr = "") (hh2 : startsWithChar '[' hdr = true)
    (hh3 : startsWithChar '#' hdr = false)
    (hok : parse_cfg (line :: hdr :: rest) = .ok blocks) :
    blocks.head? = some [(rstrip k, lstrip v)] := by
  unfold parse_cfg at hok
  rw [List.filter_cons_of_pos (by simp [hne, hnc]),
    List.filter_cons_of_pos (by simp [hh1, hh3])] at hok
  unfold parseLoop at hok
  rw [if_neg (by simp [hnb])] at hok
  have hline : procLine line [] = .ok [(rstrip k, lstrip v)] := by
    unfold procLine
    rw [hsplit]
    rfl
  rw [hline] at hok
  unfold parseLoop at hok
  rw [if_pos (by simp [hh2])] at hok
  rw [if_neg (by simp)] at hok
  dsimp only at hok
  cases hpc : procLine ("type=" ++ rstrip (sliceInner hdr)) [] with
  | error e =>
    rw [hpc] at hok
    exact absurd hok (by simp)
  | ok holder2 =>
    rw [hpc] at hok
    obtain ⟨t, ht⟩ := parseLoop_append hok
    rw [ht]
    rfl

/-- Witness for the amended C8 at a concrete source. -/
theorem keyvalue_before_header_first_block_witness :
    ([[("key", "value")], [("type", "net"), ("batch", "1")]] :
      List Block).head? = some [(rstrip "key", lstrip "value")] :=
  keyvalue_before_header_first_block "key=value" "[net]" ["batch=1"]
    "key" "value" [[("key", "value")], [("type", "net"), ("batch", "1")]]
    (by decide) rfl rfl rfl (by decide) rfl rfl rfl

/-- Claim C10: for every upsample and every shortcut block at index
`j`, the filter count recorded at index `j` is not computed from that
block: it is the entry recorded for the most recent convolutional or
route block (or the initial placeholder `none`, Python's empty list,
when no such block precedes); and the upsample and elementwise-add
primitives preserve the channel count of their (first) operand, which
is what makes the carried-over count coincide with the block's true
output channels. -/
theorem upsample_shortcut_filters_carryover (nc : Nat)
    (orc : Tensor → Nat × Nat) (ms : Nat × Nat × Nat) (blocks : List Block)
    (st' : BuildState) (j : Nat)
    (hrun : load_model nc orc ms blocks = .ok st')
    (hj : j < (blocks.drop 1).length)
    (hty : ((blocks.drop 1).getD j []).lookup "type" = some "upsample" ∨
           ((blocks.drop 1).getD j []).lookup "type" = some "shortcut") :
    (∃ v, st'.output_filters.get? j = some v ∧
      ((∃ kk, lastCR (blocks.drop 1) j = some kk ∧
          st'.output_filters.get? kk = some v) ∨
       (lastCR (blocks.drop 1) j = none ∧ v = none))) ∧
    (∀ (s : Int) (t : Tensor), chan (.upSampling2D s t) = chan t) ∧
    (∀ (a b : Tensor), chan (.addT a b) = chan a) := by
  unfold load_model at hrun
  have hcr : isCR ((blocks.drop 1).getD j []) = false := by
    rcases hty with h | h <;> (unfold isCR; rw [h]; rfl)
  obtain ⟨v, hv, hd⟩ := runBlocks_filters hrun j hj hcr
  simp only [initState, List.length_nil, Nat.zero_add] at hv hd
  exact ⟨⟨v, hv, hd⟩, fun s t => rfl, fun a b => rfl⟩

/-- Witness for C10: in the convolution-then-upsample architecture, the
entry recorded at the upsample index 1 is the entry recorded by the
convolution at index 0. -/
theorem upsample_shortcut_filters_carryover_witness :
    (∃ v, convUpsSt.output_filters.get? 1 = some v ∧
      ((∃ kk, lastCR (convUps.drop 1) 1 = some kk ∧
          convUpsSt.output_filters.get? kk = some v) ∨
       (lastCR (convUps.drop 1) 1 = none ∧ v = none))) ∧
    (∀ (s : Int) (t : Tensor), chan (.upSampling2D s t) = chan t) ∧
    (∀ (a b : Tensor), chan (.addT a b) = chan a) :=
  upsample_shortcut_filters_carryover 80 sampleOracle (416, 416, 3) convUps
    convUpsSt 1 rfl (by decide) (Or.inl rfl)

/-- Claim C3: for every architecture whose post-net walk succeeds and
contains exactly three yolo blocks (at positions `j1 < j2 < j3` in
processing order), the accumulated prediction is the record-axis
concatenation of the three heads in head-processing order with no
interleaving: its record sequence is the first head's records followed
by the second's followed by the third's, its total record count is the
sum of the three heads' counts `A_k * H_k * W_k`, and each head's
records occupy the corresponding contiguous slice. -/
theorem three_heads_concat_in_order (nc : Nat) (orc : Tensor → Nat × Nat)
    (ms : Nat × Nat × Nat) (blocks : List Block) (st' : BuildState)
    (j1 j2 j3 : Nat)
    (hrun : load_model nc orc ms blocks = .ok st')
    (hyolo : yoloPositions 0 (blocks.drop 1) = [j1, j2, j3]) :
    ∃ (a1 a2 a3 : List (Int × Int)) (g1 g2 g3 : Nat × Nat)
      (t1 t2 t3 : Tensor),
      st'.out_pred = some (.concatP (.concatP (.headP j1 a1 g1 t1)
        (.headP j2 a2 g2 t2)) (.headP j3 a3 g3 t3)) ∧
      ∀ (sig e : ℚ → ℚ) (C : Nat) (inHW : Nat × Nat) (env : Nat → List ℚ),
        predRecords sig e C inHW env
            (.concatP (.concatP (.headP j1 a1 g1 t1) (.headP j2 a2 g2 t2))
              (.headP j3 a3 g3 t3)) =
          decodeHead sig e C a1 inHW.1 inHW.2 g1.1 g1.2 (env j1) ++
            (decodeHead sig e C a2 inHW.1 inHW.2 g2.1 g2.2 (env j2) ++
              decodeHead sig e C a3 inHW.1 inHW.2 g3.1 g3.2 (env j3)) ∧
        ((env j1).length = g1.1 * g1.2 * a1.length * (5 + C) →
         (env j2).length = g2.1 * g2.2 * a2.length * (5 + C) →
         (env j3).length = g3.1 * g3.2 * a3.length * (5 + C) →
         (predRecords sig e C inHW env
             (.concatP (.concatP (.headP j1 a1 g1 t1) (.headP j2 a2 g2 t2))
               (.headP j3 a3 g3 t3))).length =
             a1.length * g1.1 * g1.2 + a2.length * g2.1 * g2.2 +
               a3.length * g3.1 * g3.2 ∧
         (predRecords sig e C inHW env
             (.concatP (.concatP (.headP j1 a1 g1 t1) (.headP j2 a2 g2 t2))
               (.headP j3 a3 g3 t3))).take (a1.length * g1.1 * g1.2) =
           decodeHead sig e C a1 inHW.1 inHW.2 g1.1 g1.2 (env j1) ∧
         ((predRecords sig e C inHW env
             (.concatP (.concatP (.headP j1 a1 g1 t1) (.headP j2 a2 g2 t2))
               (.headP j3 a3 g3 t3))).drop
             (a1.length * g1.1 * g1.2)).take (a2.length * g2.1 * g2.2) =
           decodeHead sig e C a2 inHW.1 inHW.2 g2.1 g2.2 (env j2) ∧
         (predRecords sig e C inHW env
             (.concatP (.concatP (.headP j1 a1 g1 t1) (.headP j2 a2 g2 t2))
               (.headP j3 a3 g3 t3))).drop
             (a1.length * g1.1 * g1.2 + a2.length * g2.1 * g2.2) =
           decodeHead sig e C a3 inHW.1 inHW.2 g3.1 g3.2 (env j3)) := by
  unfold load_model at hrun
  obtain ⟨ps, hps, hmap, hhead⟩ := runBlocks_pred hrun (fun _ => rfl)
  rw [hyolo] at hmap
  rcases ps with - | ⟨p1, - | ⟨p2, - | ⟨p3, - | ⟨p4, rest⟩⟩⟩⟩
  · simp at hmap
  · simp at hmap
  · simp at hmap
  case cons.cons.cons.nil =>
    obtain ⟨n1, a1, g1, t1, rfl⟩ := hhead p1 (by simp)
    obtain ⟨n2, a2, g2, t2, rfl⟩ := hhead p2 (by simp)
    obtain ⟨n3, a3, g3, t3, rfl⟩ := hhead p3 (by simp)
    simp only [List.map_cons, List.map_nil, predIdx, List.cons.injEq,
      and_true] at hmap
    obtain ⟨e1, e2, e3⟩ := hmap
    have e1' := e1.symm
    have e2' := e2.symm
    have e3' := e3.symm
    subst e1'
    subst e2'
    subst e3'
    refine ⟨a1, a2, a3, g1, g2, g3, t1, t2, t3, by rw [hps]; rfl, ?_⟩
    intro sig e C inHW env
    have htree : predRecords sig e C inHW env
        (.concatP (.concatP (.headP j1 a1 g1 t1) (.headP j2 a2 g2 t2))
          (.headP j3 a3 g3 t3)) =
        (decodeHead sig e C a1 inHW.1 inHW.2 g1.1 g1.2 (env j1) ++
          decodeHead sig e C a2 inHW.1 inHW.2 g2.1 g2.2 (env j2)) ++
          decodeHead sig e C a3 inHW.1 inHW.2 g3.1 g3.2 (env j3) := rfl
    refine ⟨by rw [htree, List.append_assoc], ?_⟩
    intro h1 h2 h3
    have l1 := decodeHead_length sig e C a1 inHW.1 inHW.2 g1.1 g1.2
      (env j1) h1
    have l2 := decodeHead_length sig e C a2 inHW.1 inHW.2 g2.1 g2.2
      (env j2) h2
    have l3 := decodeHead_length sig e C a3 inHW.1 inHW.2 g3.1 g3.2
      (env j3) h3
    refine ⟨?_, ?_, ?_, ?_⟩
    · rw [htree]
      simp only [List.length_append, l1, l2, l3]
    · rw [htree, List.append_assoc, ← l1]
      exact List.take_left _ _
    · rw [htree, List.append_assoc, ← l1, List.drop_left, ← l2]
      exact List.take_left _ _
    · rw [htree, ← l1, ← l2]
      have hlen : (decodeHead sig e C a1 inHW.1 inHW.2 g1.1 g1.2 (env j1) ++
          decodeHead sig e C a2 inHW.1 inHW.2 g2.1 g2.2 (env j2)).length =
          (decodeHead sig e C a1 inHW.1 inHW.2 g1.1 g1.2 (env j1)).length +
          (decodeHead sig e C a2 inHW.1 inHW.2 g2.1 g2.2 (env j2)).length :=
        List.length_append _ _
      rw [← hlen]
      exact List.drop_left _ _
  case cons.cons.cons.cons =>
    simp at hmap

/-- Witness for C3: the three-head sample architecture yields the
left-nested concatenation of its three heads at positions 0, 1, 2. -/
theorem three_heads_concat_in_order_witness :
    ∃ (a1 a2 a3 : List (Int × Int)) (g1 g2 g3 : Nat × Nat)
      (t1 t2 t3 : Tensor),
      threeYoloSt.out_pred = some (.concatP (.concatP (.headP 0 a1 g1 t1)
        (.headP 1 a2 g2 t2)) (.headP 2 a3 g3 t3)) := by
  obtain ⟨a1, a2, a3, g1, g2, g3, t1, t2, t3, hpred, -⟩ :=
    three_heads_concat_in_order 80 sampleOracle (416, 416, 3) threeYolo
      threeYoloSt 0 1 2 rfl rfl
  exact ⟨a1, a2, a3, g1, g2, g3, t1, t2, t3, hpred⟩

end YoloSpec
